import Mathlib

/-!
Shallow embedding of the internship-logger job queue (src/app/core/database.py),
its HTTP-facing queue endpoints (src/app/api/cloud.py, src/app/api/local.py) and
the pipeline driver (src/app/api/local.py process_job_background,
src/app/worker.py process_job), together with theorems checking the
specification's claims about them.

Timestamps are ISO-8601 strings in the source, totally ordered chronologically;
they are modelled as `Nat`.  SQLite table rows are modelled as Lean lists in
rowid (insertion) order.  Each SQL transaction becomes one Lean state
transition.
-/

namespace InternshipLogger

/-- Job status values stored in the `status` column of the `jobs` table. -/
inductive Status where
  | pending
  | processing
  | done
  | error
deriving DecidableEq, Repr

/-- One audio clip as submitted: base64 payload and a format-hint suffix. -/
structure Clip where
  audio_b64 : String
  suffix : String
deriving DecidableEq, Repr

/-- A row of the `jobs` table (database.py init_db). -/
structure Job where
  id : String
  status : Status
  created_at : Nat
  completed_at : Option Nat
  notion_url : Option String
  error_message : Option String
deriving DecidableEq, Repr

/-- A row of the `job_clips` table (database.py init_db); rowid order is the
list order. -/
structure ClipRow where
  job_id : String
  audio_b64 : String
  suffix : String
deriving DecidableEq, Repr

/-- The persistent store: the two SQLite tables, rows in rowid order. -/
structure Store where
  jobs : List Job
  clips : List ClipRow
deriving DecidableEq, Repr

def emptyStore : Store := ⟨[], []⟩

/-- database.py create_job: one transaction inserting the job row
(status 'pending', created_at = now) and one clip row per submitted clip.
The fresh uuid and the clock are inputs.  Returns the new store and the id. -/
def create_job (s : Store) (clips : List Clip) (job_id : String) (now : Nat) :
    Store × String :=
  ({ jobs := s.jobs ++
       [{ id := job_id, status := .pending, created_at := now,
          completed_at := none, notion_url := none, error_message := none }],
     clips := s.clips ++
       clips.map (fun c => { job_id := job_id, audio_b64 := c.audio_b64,
                             suffix := c.suffix }) },
   job_id)

/-- Keep the earlier job unless a strictly older candidate exists. -/
def minPending (j : Job) : Option Job → Job
  | none => j
  | some b => if b.created_at < j.created_at then b else j

/-- The SQL `SELECT id FROM jobs WHERE status='pending' ORDER BY created_at ASC
LIMIT 1` inside claim_next_job: the first (rowid order) pending job of minimal
created_at. -/
def oldestPending : List Job → Option Job
  | [] => none
  | j :: rest =>
      if j.status = .pending then some (minPending j (oldestPending rest))
      else oldestPending rest

/-- The SELECT step of claim_next_job, returning the chosen job id. -/
def selectPending (s : Store) : Option String :=
  (oldestPending s.jobs).map Job.id

/-- The SQL `UPDATE jobs SET status='processing' WHERE id=?` step of
claim_next_job: unconditional on the current status. -/
def markProcessing (s : Store) (job_id : String) : Store :=
  { s with jobs := s.jobs.map (fun j =>
      if j.id = job_id then { j with status := .processing } else j) }

/-- The SQL `SELECT audio_b64, suffix FROM job_clips WHERE job_id=?` step:
the clips of a job, in rowid order. -/
def jobClips (s : Store) (job_id : String) : List Clip :=
  (s.clips.filter (fun c => c.job_id == job_id)).map
    (fun c => { audio_b64 := c.audio_b64, suffix := c.suffix })

/-- The value claim_next_job returns: `{"id": ..., "clips": [...]}`. -/
structure ClaimResult where
  id : String
  clips : List Clip
deriving DecidableEq, Repr

/-- database.py claim_next_job run without interference: SELECT the oldest
pending job, UPDATE it to 'processing', read its clips. -/
def claim_next_job (s : Store) : Option ClaimResult × Store :=
  match selectPending s with
  | none => (none, s)
  | some jid => (some { id := jid, clips := jobClips s jid }, markProcessing s jid)

/-- Two concurrent claim_next_job calls whose SELECTs both run before either
UPDATE commits.  Under WAL journal mode a reader is never blocked by the
in-flight writer, and the UPDATE carries no status condition, so this
interleaving is reachable with two connections. -/
def claim_race (s : Store) : Option String × Option String × Store :=
  let r1 := selectPending s
  let r2 := selectPending s
  let s1 := match r1 with | none => s | some i => markProcessing s i
  let s2 := match r2 with | none => s1 | some i => markProcessing s1 i
  (r1, r2, s2)

/-- database.py complete_job: `UPDATE jobs SET status='done', completed_at=?,
notion_url=? WHERE id=?`.  No status condition, error_message not cleared,
no row matched is a silent no-op. -/
def complete_job (s : Store) (job_id url : String) (now : Nat) : Store :=
  { s with jobs := s.jobs.map (fun j =>
      if j.id = job_id then
        { j with status := .done, completed_at := some now,
                 notion_url := some url }
      else j) }

/-- database.py fail_job: `UPDATE jobs SET status='error', completed_at=?,
error_message=? WHERE id=?`.  Same shape as complete_job. -/
def fail_job (s : Store) (job_id msg : String) (now : Nat) : Store :=
  { s with jobs := s.jobs.map (fun j =>
      if j.id = job_id then
        { j with status := .error, completed_at := some now,
                 error_message := some msg }
      else j) }

/-- database.py get_job_status: `SELECT ... FROM jobs WHERE id=?` with
fetchone, i.e. the first row (rowid order) with that id, or None. -/
def get_job_status (s : Store) (job_id : String) : Option Job :=
  s.jobs.find? (fun j => j.id == job_id)

/-- Error outcomes of the HTTP layer (HTTPException status codes). -/
inductive ApiError where
  | badRequest
  | notFound
  | upstream (code : Nat) (msg : String)
deriving DecidableEq, Repr

/-- submit_audio in both api/cloud.py and api/local.py: reject an empty clips
list with 400 before touching the store, otherwise create the job. -/
def submit_audio (s : Store) (clips : List Clip) (job_id : String) (now : Nat) :
    Except ApiError (Store × String) :=
  if clips = [] then .error .badRequest
  else .ok (create_job s clips job_id now)

/-- api/cloud.py queue_complete, with the Notion publish call abstracted as its
outcome: 404 when the id is unknown; on publish failure record the failure via
fail_job and surface 502; on success record via complete_job.  Returns the
resulting store together with the HTTP outcome. -/
def queue_complete (s : Store) (job_id : String)
    (publish : Except String String) (now : Nat) :
    Store × Except ApiError String :=
  match get_job_status s job_id with
  | none => (s, .error .notFound)
  | some _ =>
      match publish with
      | .error e =>
          (fail_job s job_id ("Notion error: " ++ e) now,
           .error (.upstream 502 ("Notion error: " ++ e)))
      | .ok url => (complete_job s job_id url now, .ok url)

/-- api/cloud.py queue_fail: no existence check at all — it calls fail_job and
answers `{"status": "error"}` with HTTP 200 unconditionally. -/
def queue_fail (s : Store) (job_id msg : String) (now : Nat) :
    Store × Except ApiError String :=
  (fail_job s job_id msg now, .ok "error")

/-- Transcription loop of process_job_background / worker.process_job: decode
and transcribe each clip in order, aborting on the first collaborator error. -/
def transcribeAll (t : Clip → Except String String) :
    List Clip → Except String (List String)
  | [] => .ok []
  | c :: rest =>
      match t c with
      | .error e => .error e
      | .ok txt =>
          match transcribeAll t rest with
          | .error e => .error e
          | .ok ts => .ok (txt :: ts)

/-- The fixed heading under which the verbatim transcript is appended to the
summary body (`body += f"\n\n## Original Transcript\n\n{combined}"`). -/
def transcriptHeading : String := "\n\n## Original Transcript\n\n"

/-- The pipeline of the Lifecycle Driver with the three collaborators
abstracted as functions: transcribe every clip, join the transcripts with a
single space, summarize, append the verbatim transcript under the fixed
heading, publish.  Any collaborator error aborts with that error's message. -/
def runPipeline (clips : List Clip) (t : Clip → Except String String)
    (sz : String → Except String (String × String))
    (pb : String → String → Except String String) : Except String String :=
  match transcribeAll t clips with
  | .error e => .error e
  | .ok ts =>
      match sz (String.intercalate " " ts) with
      | .error e => .error e
      | .ok (title, body) =>
          pb title (body ++ transcriptHeading ++ String.intercalate " " ts)

/-- api/local.py process_job_background: run the pipeline for a job; on
success record the result location via complete_job, on any caught error
record the derived message via fail_job.  No exception escapes (the function
is total), mirroring the try/except that converts every pipeline error into a
fail_job call. -/
def process_job_background (s : Store) (job_id : String) (clips : List Clip)
    (t : Clip → Except String String)
    (sz : String → Except String (String × String))
    (pb : String → String → Except String String) (now : Nat) : Store :=
  match runPipeline clips t sz pb with
  | .ok url => complete_job s job_id url now
  | .error msg => fail_job s job_id msg now

/-- One store-mutating operation, for reachability statements. -/
inductive Op where
  | create (clips : List Clip) (id : String) (now : Nat)
  | claim
  | complete (id url : String) (now : Nat)
  | fail (id msg : String) (now : Nat)
deriving DecidableEq, Repr

/-- The store transition of one operation. -/
def applyOp (s : Store) : Op → Store
  | .create clips id now => (create_job s clips id now).1
  | .claim => (claim_next_job s).2
  | .complete id url now => complete_job s id url now
  | .fail id msg now => fail_job s id msg now

/-- Run a sequence of operations. -/
def runOps (s : Store) : List Op → Store
  | [] => s
  | op :: ops => runOps (applyOp s op) ops

/-- The per-job field/status correlation claimed by the spec: result location
set iff status done, error message set iff status error (hence neither set
iff pending or processing). -/
def fieldOk (j : Job) : Prop :=
  (j.notion_url ≠ none ↔ j.status = .done) ∧
  (j.error_message ≠ none ↔ j.status = .error)

instance (j : Job) : Decidable (fieldOk j) := by
  unfold fieldOk; infer_instance

/-- The field/status correlation for every row of the store. -/
def storeInv (s : Store) : Prop := ∀ j ∈ s.jobs, fieldOk j

instance (s : Store) : Decidable (storeInv s) := by
  unfold storeInv; infer_instance

/-- Side conditions under which an operation respects the intended protocol:
create uses a fresh id (the uuid / PRIMARY KEY assumption — a duplicate id
would make the INSERT raise), complete is not applied to a job already in
status error, fail not to a job already in status done. -/
def opLegal (s : Store) : Op → Prop
  | .create _ id _ => ∀ j ∈ s.jobs, j.id ≠ id
  | .claim => True
  | .complete id _ _ => ∀ j ∈ s.jobs, j.id = id → j.status ≠ .error
  | .fail id _ _ => ∀ j ∈ s.jobs, j.id = id → j.status ≠ .done

instance (s : Store) (op : Op) : Decidable (opLegal s op) := by
  unfold opLegal; cases op <;> infer_instance

/-- A run every step of which satisfies opLegal in the state it executes in. -/
inductive LegalRun : Store → List Op → Prop
  | nil (s : Store) : LegalRun s []
  | cons (s : Store) (op : Op) (ops : List Op) :
      opLegal s op → LegalRun (applyOp s op) ops → LegalRun s (op :: ops)

/-- Both field/status invariant and primary-key uniqueness of job ids. -/
def goodStore (s : Store) : Prop :=
  storeInv s ∧ (s.jobs.map Job.id).Nodup

-- Concrete instances used in counterexamples and witnesses.

/-- Two pending jobs, "a" older than "b". -/
def sRace : Store :=
  ⟨[⟨"a", .pending, 1, none, none, none⟩,
    ⟨"b", .pending, 2, none, none, none⟩], []⟩

/-- A store holding one job already in terminal status done. -/
def sDone : Store :=
  ⟨[⟨"a", .done, 0, some 1, some "u", none⟩], []⟩

/-- A done job next to a pending one. -/
def sDonePending : Store :=
  ⟨[⟨"d", .done, 0, some 1, some "u", none⟩,
    ⟨"p", .pending, 2, none, none, none⟩], []⟩

/-- A store holding one job already in terminal status error. -/
def sFailed : Store :=
  ⟨[⟨"a", .error, 0, some 1, none, some "m"⟩], []⟩

/-- A store holding one pending job with one clip. -/
def sPendingOne : Store :=
  ⟨[⟨"a", .pending, 0, none, none, none⟩],
   [⟨"a", "payload", ".webm"⟩]⟩

/-- The claim result claim_next_job produces on sPendingOne. -/
def claimOneRes : ClaimResult := ⟨"a", [⟨"payload", ".webm"⟩]⟩

/-- The store claim_next_job leaves behind on sPendingOne. -/
def sClaimedOne : Store :=
  ⟨[⟨"a", .processing, 0, none, none, none⟩],
   [⟨"a", "payload", ".webm"⟩]⟩

/-- A transcription collaborator that succeeds, echoing the payload. -/
def tEcho : Clip → Except String String := fun c => .ok c.audio_b64

/-- A summarization collaborator that succeeds with title "T", body "B". -/
def szTB : String → Except String (String × String) := fun _ => .ok ("T", "B")

/-- A publishing collaborator that succeeds with a fixed location. -/
def pbHttp : String → String → Except String String := fun _ _ => .ok "http"

/-- create, claim, fail, then complete on the same job: the overwrite the
field/status invariant cannot survive. -/
def opsFailThenComplete : List Op :=
  [.create [⟨"x", ".webm"⟩] "a" 0, .claim, .fail "a" "m" 1, .complete "a" "u" 2]

/-- A protocol-respecting run: create, claim, complete. -/
def opsNormal : List Op :=
  [.create [⟨"x", ".webm"⟩] "a" 0, .claim, .complete "a" "u" 1]

-- ── Helper lemmas ────────────────────────────────────────────────────────

theorem map_fix_of_mem {α : Type} {l : List α} {f : α → α}
    (h : ∀ x ∈ l, f x = x) : l.map f = l :=
  (List.map_congr_left h).trans (List.map_id l)

theorem find?_map_pres {α : Type} (l : List α) (f : α → α) (p : α → Bool)
    (hp : ∀ x, p (f x) = p x) :
    (l.map f).find? p = (l.find? p).map f := by
  induction l with
  | nil => rfl
  | cons a tl ih =>
      simp only [List.map_cons, List.find?, hp a]
      cases h : p a
      · simpa using ih
      · rfl

theorem oldestPending_mem {l : List Job} {j : Job}
    (h : oldestPending l = some j) : j ∈ l := by
  induction l generalizing j with
  | nil => simp [oldestPending] at h
  | cons a tl ih =>
      by_cases ha : a.status = Status.pending
      · simp only [oldestPending, if_pos ha, Option.some.injEq] at h
        cases hop : oldestPending tl with
        | none => rw [hop] at h; simp only [minPending] at h
                  exact h ▸ List.mem_cons_self a tl
        | some b =>
            rw [hop] at h; simp only [minPending] at h
            by_cases hbc : b.created_at < a.created_at
            · rw [if_pos hbc] at h
              exact h ▸ List.mem_cons_of_mem a (ih hop)
            · rw [if_neg hbc] at h; exact h ▸ List.mem_cons_self a tl
      · simp only [oldestPending, if_neg ha] at h
        exact List.mem_cons_of_mem a (ih h)

theorem oldestPending_pending {l : List Job} {j : Job}
    (h : oldestPending l = some j) : j.status = Status.pending := by
  induction l generalizing j with
  | nil => simp [oldestPending] at h
  | cons a tl ih =>
      by_cases ha : a.status = Status.pending
      · simp only [oldestPending, if_pos ha, Option.some.injEq] at h
        cases hop : oldestPending tl with
        | none => rw [hop] at h; simp only [minPending] at h; exact h ▸ ha
        | some b =>
            rw [hop] at h; simp only [minPending] at h
            by_cases hbc : b.created_at < a.created_at
            · rw [if_pos hbc] at h; exact h ▸ ih hop
            · rw [if_neg hbc] at h; exact h ▸ ha
      · simp only [oldestPending, if_neg ha] at h
        exact ih h

theorem oldestPending_none {l : List Job}
    (h : oldestPending l = none) : ∀ k ∈ l, k.status ≠ Status.pending := by
  induction l with
  | nil => intro k hk; simp at hk
  | cons a tl ih =>
      intro k hk
      by_cases ha : a.status = Status.pending
      · simp only [oldestPending, if_pos ha] at h
        exact Option.noConfusion h
      · simp only [oldestPending, if_neg ha] at h
        rcases List.mem_cons.mp hk with rfl | hk'
        · exact ha
        · exact ih h k hk'

theorem oldestPending_min {l : List Job} {j : Job}
    (h : oldestPending l = some j) :
    ∀ k ∈ l, k.status = Status.pending → j.created_at ≤ k.created_at := by
  induction l generalizing j with
  | nil => simp [oldestPending] at h
  | cons a tl ih =>
      intro k hk hkp
      by_cases ha : a.status = Status.pending
      · simp only [oldestPending, if_pos ha, Option.some.injEq] at h
        cases hop : oldestPending tl with
        | none =>
            rw [hop] at h; simp only [minPending] at h
            rcases List.mem_cons.mp hk with rfl | hk'
            · exact h ▸ le_rfl
            · exact absurd hkp (oldestPending_none hop k hk')
        | some b =>
            rw [hop] at h; simp only [minPending] at h
            by_cases hbc : b.created_at < a.created_at
            · rw [if_pos hbc] at h
              rcases List.mem_cons.mp hk with rfl | hk'
              · exact h ▸ le_of_lt hbc
              · exact h ▸ ih hop k hk' hkp
            · rw [if_neg hbc] at h
              rcases List.mem_cons.mp hk with rfl | hk'
              · exact h ▸ le_rfl
              · exact h ▸ le_trans (le_of_not_lt hbc)
                  (ih hop k hk' hkp)
      · simp only [oldestPending, if_neg ha] at h
        rcases List.mem_cons.mp hk with rfl | hk'
        · exact absurd hkp ha
        · exact ih h k hk' hkp

theorem id_eq_of_mem_nodup {l : List Job} (hnd : (l.map Job.id).Nodup)
    {j k : Job} (hj : j ∈ l) (hk : k ∈ l) (h : j.id = k.id) : j = k :=
  List.inj_on_of_nodup_map hnd hj hk h

theorem map_ids_pres (l : List Job) (f : Job → Job)
    (hf : ∀ j, (f j).id = j.id) :
    (l.map f).map Job.id = l.map Job.id := by
  rw [List.map_map]
  exact List.map_congr_left (fun k _ => hf k)

theorem get_complete_eq (s : Store) (id url : String) (now : Nat) (j : Job)
    (h : get_job_status s id = some j) :
    get_job_status (complete_job s id url now) id =
      some { j with status := Status.done, completed_at := some now,
                    notion_url := some url } := by
  have hid : j.id = id := by simpa using List.find?_some h
  unfold get_job_status complete_job
  rw [find?_map_pres]
  · unfold get_job_status at h
    rw [h]
    simp [hid]
  · intro x
    by_cases hx : x.id = id <;> simp [hx]

theorem get_fail_eq (s : Store) (id msg : String) (now : Nat) (j : Job)
    (h : get_job_status s id = some j) :
    get_job_status (fail_job s id msg now) id =
      some { j with status := Status.error, completed_at := some now,
                    error_message := some msg } := by
  have hid : j.id = id := by simpa using List.find?_some h
  unfold get_job_status fail_job
  rw [find?_map_pres]
  · unfold get_job_status at h
    rw [h]
    simp [hid]
  · intro x
    by_cases hx : x.id = id <;> simp [hx]

theorem applyOp_good {s : Store} {op : Op} (hg : goodStore s)
    (hl : opLegal s op) : goodStore (applyOp s op) := by
  obtain ⟨hinv, hnd⟩ := hg
  cases op with
  | create clips id now =>
      refine ⟨?_, ?_⟩
      · intro j hj
        rcases List.mem_append.mp hj with hj' | hj'
        · exact hinv j hj'
        · rcases List.mem_singleton.mp hj' with rfl
          simp [fieldOk]
      · simp only [applyOp, create_job, List.map_append, List.map_cons,
          List.map_nil]
        rw [List.nodup_append]
        refine ⟨hnd, List.nodup_singleton _, ?_⟩
        intro a ha hb
        rcases List.mem_map.mp ha with ⟨k, hk, rfl⟩
        rcases List.mem_singleton.mp hb with h
        exact hl k hk h
  | claim =>
      simp only [applyOp, claim_next_job, selectPending]
      cases hop : oldestPending s.jobs with
      | none => exact ⟨hinv, hnd⟩
      | some jp =>
          show goodStore (markProcessing s jp.id)
          refine ⟨?_, ?_⟩
          · intro j' hj'
            rcases List.mem_map.mp hj' with ⟨k, hk, rfl⟩
            by_cases hkid : k.id = jp.id
            · have hkjp : k = jp :=
                id_eq_of_mem_nodup hnd hk (oldestPending_mem hop) hkid
              subst hkjp
              have hpend : k.status = Status.pending := oldestPending_pending hop
              have hu : k.notion_url = none := by
                by_contra hne
                have hd := (hinv k hk).1.mp hne
                rw [hpend] at hd
                exact Status.noConfusion hd
              have he : k.error_message = none := by
                by_contra hne
                have hd := (hinv k hk).2.mp hne
                rw [hpend] at hd
                exact Status.noConfusion hd
              simp only [if_pos hkid]
              exact ⟨by simp [fieldOk, hu], by simp [fieldOk, he]⟩
            · simp only [if_neg hkid]
              exact hinv k hk
          · simp only [markProcessing]
            rw [map_ids_pres]
            · exact hnd
            · intro j
              by_cases hj : j.id = jp.id <;> simp [hj]
  | complete id url now =>
      simp only [applyOp, complete_job]
      refine ⟨?_, ?_⟩
      · intro j' hj'
        rcases List.mem_map.mp hj' with ⟨k, hk, rfl⟩
        by_cases hkid : k.id = id
        · have he : k.error_message = none := by
            by_contra hne
            exact (hl k hk hkid) ((hinv k hk).2.mp hne)
          simp only [if_pos hkid]
          exact ⟨by simp [fieldOk], by simp [fieldOk, he]⟩
        · simp only [if_neg hkid]
          exact hinv k hk
      · rw [map_ids_pres]
        · exact hnd
        · intro j
          by_cases hj : j.id = id <;> simp [hj]
  | fail id msg now =>
      simp only [applyOp, fail_job]
      refine ⟨?_, ?_⟩
      · intro j' hj'
        rcases List.mem_map.mp hj' with ⟨k, hk, rfl⟩
        by_cases hkid : k.id = id
        · have hu : k.notion_url = none := by
            by_contra hne
            exact (hl k hk hkid) ((hinv k hk).1.mp hne)
          simp only [if_pos hkid]
          exact ⟨by simp [fieldOk, hu], by simp [fieldOk]⟩
        · simp only [if_neg hkid]
          exact hinv k hk
      · rw [map_ids_pres]
        · exact hnd
        · intro j
          by_cases hj : j.id = id <;> simp [hj]

theorem runOps_good (ops : List Op) :
    ∀ s : Store, goodStore s → LegalRun s ops → goodStore (runOps s ops) := by
  induction ops with
  | nil => intro s hg _; exact hg
  | cons op rest ih =>
      intro s hg hlr
      cases hlr with
      | cons _ _ _ hop hrest => exact ih (applyOp s op) (applyOp_good hg hop) hrest

-- ── Claim theorems ───────────────────────────────────────────────────────

/-- C1 (code bug evidence): the two SQL statements of claim_next_job are not
one indivisible read-modify-write.  In the interleaving where both callers run
their SELECT before either UPDATE commits — reachable because WAL readers are
not blocked by a writer and the UPDATE has no `status='pending'` condition —
both concurrent calls claim and return the same job id "a", violating
pairwise-distinct returns, while job "b" stays pending (so only 1 ≠ min(2,2)
claims succeed). -/
theorem c1_claim_race_duplicate :
    (claim_race sRace).1 = some "a" ∧
    (claim_race sRace).2.1 = some "a" ∧
    (get_job_status (claim_race sRace).2.2 "b").map Job.status =
      some Status.pending := by
  refine ⟨rfl, rfl, rfl⟩

/-- C10: the store-level create_job performs no validation: on an empty clip
list it still inserts a pending job row with zero clip rows and returns the
id, while the submit endpoints (identical guard in api/cloud.py and
api/local.py) reject an empty clips list with 400 before create_job runs. -/
theorem c10_create_no_validation (s : Store) (id : String) (now : Nat) :
    (create_job s [] id now).2 = id ∧
    (create_job s [] id now).1.jobs =
      s.jobs ++ [⟨id, Status.pending, now, none, none, none⟩] ∧
    (create_job s [] id now).1.clips = s.clips ∧
    submit_audio s [] id now = Except.error ApiError.badRequest := by
  refine ⟨rfl, rfl, ?_, rfl⟩
  simp [create_job]

/-- C3 counterexample: fail_job on a job already in terminal status done
overwrites it to error — `done` is not terminal under fail. -/
theorem c3_fail_overwrites_done :
    (get_job_status sDone "a").map Job.status = some Status.done ∧
    (get_job_status (fail_job sDone "a" "m" 2) "a").map Job.status =
      some Status.error := by
  refine ⟨rfl, rfl⟩

/-- C4 counterexample: after create, claim, fail("m"), complete("u") on the
same job the row has status done with BOTH notion_url and error_message set —
the exactly-one-of invariant fails on a reachable state. -/
theorem c4_invariant_violated :
    ¬ storeInv (runOps emptyStore opsFailThenComplete) := by
  decide

/-- C5 counterexample: complete on an existing job that previously failed
leaves error_message set ("m"), contradicting the claim that after
complete(id, url) the error_message is absent for every existing job id. -/
theorem c5_complete_keeps_error_message :
    (get_job_status (complete_job sFailed "a" "u" 2) "a").map Job.status =
      some Status.done ∧
    (get_job_status (complete_job sFailed "a" "u" 2) "a").map
        Job.error_message = some (some "m") := by
  refine ⟨rfl, rfl⟩

/-- C6 counterexample: queue_fail on an id absent from the store does not
signal NotFound — it reports success (HTTP 200, `{"status": "error"}`) and
leaves the store unchanged. -/
theorem c6_fail_unknown_no_notfound :
    (queue_fail emptyStore "x" "m" 0).2 = Except.ok "error" ∧
    (queue_fail emptyStore "x" "m" 0).1 = emptyStore := by
  refine ⟨rfl, ?_⟩
  simp [queue_fail, fail_job, emptyStore]

/-- C2: when a pending job exists, claim_next_job returns the pending job of
minimal created_at (first in rowid order among ties) with its clips, and
transitions exactly that row to processing (other rows and the clips table
unchanged, length preserved); when no pending job exists it returns none and
leaves the store untouched.  Ids are assumed unique (PRIMARY KEY). -/
theorem c2_claim_next_job_spec (s : Store)
    (hnd : (s.jobs.map Job.id).Nodup) :
    (∀ (r : ClaimResult) (s' : Store), claim_next_job s = (some r, s') →
      ∃ j ∈ s.jobs, j.status = Status.pending ∧ r.id = j.id ∧
        (∀ k ∈ s.jobs, k.status = Status.pending →
          j.created_at ≤ k.created_at) ∧
        r.clips = jobClips s j.id ∧
        s'.clips = s.clips ∧
        ({ j with status := Status.processing } : Job) ∈ s'.jobs ∧
        (∀ k ∈ s.jobs, k ≠ j → k ∈ s'.jobs) ∧
        s'.jobs.length = s.jobs.length) ∧
    (∀ s' : Store, claim_next_job s = (none, s') →
      s' = s ∧ ∀ k ∈ s.jobs, k.status ≠ Status.pending) := by
  constructor
  · intro r s' h
    cases hop : oldestPending s.jobs with
    | none =>
        simp only [claim_next_job, selectPending, hop, Option.map_none',
          Prod.mk.injEq] at h
        exact Option.noConfusion h.1
    | some jp =>
        simp only [claim_next_job, selectPending, hop, Option.map_some',
          Prod.mk.injEq, Option.some.injEq] at h
        obtain ⟨hr, hs⟩ := h
        refine ⟨jp, oldestPending_mem hop, oldestPending_pending hop, ?_,
          oldestPending_min hop, ?_, ?_, ?_, ?_, ?_⟩
        · rw [← hr]
        · rw [← hr]
        · rw [← hs]; rfl
        · rw [← hs]
          exact List.mem_map.mpr ⟨jp, oldestPending_mem hop, by simp⟩
        · intro k hk hkne
          rw [← hs]
          have hkid : ¬ k.id = jp.id := fun hq =>
            hkne (id_eq_of_mem_nodup hnd hk (oldestPending_mem hop) hq)
          exact List.mem_map.mpr ⟨k, hk, by simp [hkid]⟩
        · rw [← hs]
          exact List.length_map s.jobs _
  · intro s' h
    cases hop : oldestPending s.jobs with
    | none =>
        simp only [claim_next_job, selectPending, hop, Option.map_none',
          Prod.mk.injEq, true_and] at h
        exact ⟨h.symm, oldestPending_none hop⟩
    | some jp =>
        simp only [claim_next_job, selectPending, hop, Option.map_some',
          Prod.mk.injEq] at h
        exact Option.noConfusion h.1

/-- Witness for C2 on a store with one pending job holding one clip. -/
theorem c2_witness :
    (sPendingOne.jobs.map Job.id).Nodup ∧
    (∃ j ∈ sPendingOne.jobs, j.status = Status.pending ∧
      claimOneRes.id = j.id ∧
      (∀ k ∈ sPendingOne.jobs, k.status = Status.pending →
        j.created_at ≤ k.created_at) ∧
      claimOneRes.clips = jobClips sPendingOne j.id ∧
      sClaimedOne.clips = sPendingOne.clips ∧
      ({ j with status := Status.processing } : Job) ∈ sClaimedOne.jobs ∧
      (∀ k ∈ sPendingOne.jobs, k ≠ j → k ∈ sClaimedOne.jobs) ∧
      sClaimedOne.jobs.length = sPendingOne.jobs.length) :=
  ⟨by decide,
   (c2_claim_next_job_spec sPendingOne (by decide)).1 claimOneRes sClaimedOne
     (by decide)⟩

/-- C3 (amended): done and error are terminal with respect to claimNext —
claim_next_job never touches a job already in a terminal status (its row
survives unchanged) — while complete and fail may overwrite terminal rows
(see the counterexample). -/
theorem c3_claim_preserves_terminal (s : Store)
    (hnd : (s.jobs.map Job.id).Nodup) (j : Job) (hj : j ∈ s.jobs)
    (ht : j.status = Status.done ∨ j.status = Status.error) :
    j ∈ (claim_next_job s).2.jobs := by
  cases hop : oldestPending s.jobs with
  | none =>
      simp only [claim_next_job, selectPending, hop, Option.map_none']
      exact hj
  | some jp =>
      simp only [claim_next_job, selectPending, hop, Option.map_some']
      have hpend := oldestPending_pending hop
      have hne : j ≠ jp := by
        intro hq
        rw [hq] at ht
        rcases ht with h1 | h1 <;> rw [hpend] at h1 <;>
          exact Status.noConfusion h1
      have hid : ¬ j.id = jp.id := fun hq =>
        hne (id_eq_of_mem_nodup hnd hj (oldestPending_mem hop) hq)
      exact List.mem_map.mpr ⟨j, hj, by simp [hid]⟩

/-- Witness for C3 on a store holding a done job next to a pending one. -/
theorem c3_witness :
    (sDonePending.jobs.map Job.id).Nodup ∧
    (⟨"d", Status.done, 0, some 1, some "u", none⟩ : Job) ∈
      sDonePending.jobs ∧
    (⟨"d", Status.done, 0, some 1, some "u", none⟩ : Job) ∈
      (claim_next_job sDonePending).2.jobs :=
  ⟨by decide, by decide,
   c3_claim_preserves_terminal sDonePending (by decide)
     ⟨"d", Status.done, 0, some 1, some "u", none⟩ (by decide)
     (Or.inl rfl)⟩

/-- C4 (amended): the exactly-one-of field/status invariant holds for every
store reachable from the empty store by operation sequences that respect the
protocol: create uses a fresh id, complete is never applied to a job already
in status error, and fail never to a job already in status done.  Without
those restrictions the invariant fails (see the counterexample): complete
does not clear error_message and fail does not clear notion_url. -/
theorem c4_legal_runs_invariant (ops : List Op)
    (h : LegalRun emptyStore ops) :
    ∀ j ∈ (runOps emptyStore ops).jobs, fieldOk j :=
  (runOps_good ops emptyStore ⟨by decide, by decide⟩ h).1

/-- Witness for C4 on the run create, claim, complete. -/
theorem c4_witness :
    LegalRun emptyStore opsNormal ∧
    fieldOk ⟨"a", Status.done, 0, some 1, some "u", none⟩ := by
  have hlr : LegalRun emptyStore opsNormal := by
    show LegalRun emptyStore
      [.create [⟨"x", ".webm"⟩] "a" 0, .claim, .complete "a" "u" 1]
    refine LegalRun.cons _ _ _ (by decide) ?_
    refine LegalRun.cons _ _ _ (by decide) ?_
    refine LegalRun.cons _ _ _ (by decide) ?_
    exact LegalRun.nil _
  exact ⟨hlr, c4_legal_runs_invariant opsNormal hlr
    ⟨"a", Status.done, 0, some 1, some "u", none⟩ (by decide)⟩

/-- C5 (amended): on an existing job, complete(id, url) makes getJob return
status done with result location url and completed_at set, and fail(id, msg)
makes it return status error with message msg and completed_at set — but each
leaves the other terminal field unchanged rather than absent: error_message
after complete (resp. notion_url after fail) keeps its previous value, which
is absent only when the job had none, e.g. was never failed (resp. never
completed) before. -/
theorem c5_complete_fail_get (s : Store) (id url msg : String) (now : Nat)
    (j : Job) (h : get_job_status s id = some j) :
    get_job_status (complete_job s id url now) id =
      some { j with status := Status.done, completed_at := some now,
                    notion_url := some url } ∧
    get_job_status (fail_job s id msg now) id =
      some { j with status := Status.error, completed_at := some now,
                    error_message := some msg } :=
  ⟨get_complete_eq s id url now j h, get_fail_eq s id msg now j h⟩

/-- Witness for C5 on a store with one pending job. -/
theorem c5_witness :
    get_job_status sPendingOne "a" =
      some ⟨"a", Status.pending, 0, none, none, none⟩ ∧
    get_job_status (complete_job sPendingOne "a" "u" 5) "a" =
      some ⟨"a", Status.done, 0, some 5, some "u", none⟩ ∧
    get_job_status (fail_job sPendingOne "a" "m" 5) "a" =
      some ⟨"a", Status.error, 0, some 5, none, some "m"⟩ := by
  have h := c5_complete_fail_get sPendingOne "a" "u" "m" 5
    ⟨"a", Status.pending, 0, none, none, none⟩ (by decide)
  exact ⟨by decide, h.1, h.2⟩

/-- C6 (amended): for an id absent from the store, getJob signals not-found
and the worker complete endpoint signals NotFound leaving the store
untouched; the worker fail endpoint, however, does not signal NotFound — it
leaves the store unchanged (no row created) and reports success. -/
theorem c6_unknown_id_spec (s : Store) (id msg : String)
    (pub : Except String String) (now : Nat)
    (h : ∀ j ∈ s.jobs, j.id ≠ id) :
    get_job_status s id = none ∧
    queue_complete s id pub now = (s, Except.error ApiError.notFound) ∧
    (queue_fail s id msg now).1 = s ∧
    (queue_fail s id msg now).2 = Except.ok "error" := by
  have hg : get_job_status s id = none := by
    unfold get_job_status
    exact List.find?_eq_none.mpr (fun j hj => by simpa using h j hj)
  refine ⟨hg, ?_, ?_, rfl⟩
  · unfold queue_complete
    rw [hg]
  · show fail_job s id msg now = s
    unfold fail_job
    rw [map_fix_of_mem (fun j hj => if_neg (h j hj))]

/-- Witness for C6 with the unknown id "z". -/
theorem c6_witness :
    (∀ j ∈ sPendingOne.jobs, j.id ≠ "z") ∧
    (get_job_status sPendingOne "z" = none ∧
     queue_complete sPendingOne "z" (Except.ok "u") 3 =
       (sPendingOne, Except.error ApiError.notFound) ∧
     (queue_fail sPendingOne "z" "m" 3).1 = sPendingOne ∧
     (queue_fail sPendingOne "z" "m" 3).2 = Except.ok "error") :=
  ⟨by decide,
   c6_unknown_id_spec sPendingOne "z" "m" (Except.ok "u") 3 (by decide)⟩

/-- C7: create_job (one SQL transaction, hence one atomic state transition in
this model) persists the pending job row together with all its clips: right
after it, the job row is present, getJob returns status pending with
created_at = now and no completed/result/error field set, and the job's clips
are exactly the submitted ones in order.  Hypotheses: the clip list is
non-empty (the claim's scope), the generated id is fresh among jobs (uuid /
PRIMARY KEY) and among clip rows (foreign key into jobs). -/
theorem c7_create_then_get (s : Store) (clips : List Clip) (id : String)
    (now : Nat) (hne : clips ≠ [])
    (hfresh : ∀ j ∈ s.jobs, j.id ≠ id)
    (hfk : ∀ c ∈ s.clips, c.job_id ≠ id) :
    (create_job s clips id now).2 = id ∧
    (create_job s clips id now).1.jobs =
      s.jobs ++ [⟨id, Status.pending, now, none, none, none⟩] ∧
    get_job_status (create_job s clips id now).1 id =
      some ⟨id, Status.pending, now, none, none, none⟩ ∧
    jobClips (create_job s clips id now).1 id = clips := by
  refine ⟨rfl, rfl, ?_, ?_⟩
  · unfold get_job_status create_job
    rw [List.find?_append]
    have h0 : s.jobs.find? (fun j => j.id == id) = none :=
      List.find?_eq_none.mpr (fun j hj => by simpa using hfresh j hj)
    rw [h0]
    simp [List.find?]
  · unfold jobClips create_job
    rw [List.filter_append]
    have hold : s.clips.filter (fun c => c.job_id == id) = [] :=
      List.filter_eq_nil_iff.mpr (fun c hc => by simpa using hfk c hc)
    rw [hold, List.nil_append]
    have hnew : (clips.map (fun c =>
        ({ job_id := id, audio_b64 := c.audio_b64,
           suffix := c.suffix } : ClipRow))).filter
          (fun c => c.job_id == id) =
        clips.map (fun c =>
          ({ job_id := id, audio_b64 := c.audio_b64,
             suffix := c.suffix } : ClipRow)) := by
      apply List.filter_eq_self.mpr
      intro c hc
      rcases List.mem_map.mp hc with ⟨d, _, rfl⟩
      simp
    rw [hnew, List.map_map]
    exact map_fix_of_mem (fun c _ => rfl)

/-- Witness for C7: create a one-clip job with fresh id "n" on sDone. -/
theorem c7_witness :
    ([⟨"x", ".webm"⟩] : List Clip) ≠ [] ∧
    (∀ j ∈ sDone.jobs, j.id ≠ "n") ∧
    (∀ c ∈ sDone.clips, c.job_id ≠ "n") ∧
    ((create_job sDone [⟨"x", ".webm"⟩] "n" 7).2 = "n" ∧
     (create_job sDone [⟨"x", ".webm"⟩] "n" 7).1.jobs =
       sDone.jobs ++ [⟨"n", Status.pending, 7, none, none, none⟩] ∧
     get_job_status (create_job sDone [⟨"x", ".webm"⟩] "n" 7).1 "n" =
       some ⟨"n", Status.pending, 7, none, none, none⟩ ∧
     jobClips (create_job sDone [⟨"x", ".webm"⟩] "n" 7).1 "n" =
       [⟨"x", ".webm"⟩]) :=
  ⟨by decide, by decide, by decide,
   c7_create_then_get sDone [⟨"x", ".webm"⟩] "n" 7 (by decide) (by decide)
     (by decide)⟩

/-- C8: the Lifecycle Driver ends every run of a claimed job with exactly one
terminal report and never lets a pipeline error escape: if the pipeline
(transcription, summarization, publishing, each of which may fail) succeeds
with a result location, the job is recorded done with that location via
complete; if any collaborator fails with message msg, the job is recorded
error with that message via fail — in both cases the poller observes the
terminal state through getJob, and the driver itself is a total function, so
no pipeline error propagates as a process error. -/
theorem c8_driver_terminal (s : Store) (job_id : String) (clips : List Clip)
    (t : Clip → Except String String)
    (sz : String → Except String (String × String))
    (pb : String → String → Except String String) (now : Nat) (j : Job)
    (h : get_job_status s job_id = some j) :
    (∀ url, runPipeline clips t sz pb = Except.ok url →
      get_job_status (process_job_background s job_id clips t sz pb now)
          job_id =
        some { j with status := Status.done, completed_at := some now,
                      notion_url := some url }) ∧
    (∀ msg, runPipeline clips t sz pb = Except.error msg →
      get_job_status (process_job_background s job_id clips t sz pb now)
          job_id =
        some { j with status := Status.error, completed_at := some now,
                      error_message := some msg }) := by
  constructor
  · intro url hu
    unfold process_job_background
    rw [hu]
    exact get_complete_eq s job_id url now j h
  · intro msg hm
    unfold process_job_background
    rw [hm]
    exact get_fail_eq s job_id msg now j h

/-- Witness for C8: a fully succeeding pipeline on the one-clip pending job. -/
theorem c8_witness :
    get_job_status sPendingOne "a" =
      some ⟨"a", Status.pending, 0, none, none, none⟩ ∧
    runPipeline [⟨"x", ".webm"⟩] tEcho szTB pbHttp = Except.ok "http" ∧
    get_job_status
        (process_job_background sPendingOne "a" [⟨"x", ".webm"⟩]
          tEcho szTB pbHttp 9) "a" =
      some ⟨"a", Status.done, 0, some 9, some "http", none⟩ :=
  ⟨by decide, rfl,
   (c8_driver_terminal sPendingOne "a" [⟨"x", ".webm"⟩] tEcho szTB pbHttp 9
     ⟨"a", Status.pending, 0, none, none, none⟩ (by decide)).1 "http" rfl⟩

theorem transcribeAll_forall2 {t : Clip → Except String String} :
    ∀ {clips : List Clip} {ts : List String},
      transcribeAll t clips = Except.ok ts →
      List.Forall₂ (fun c txt => t c = Except.ok txt) clips ts := by
  intro clips
  induction clips with
  | nil =>
      intro ts h
      unfold transcribeAll at h
      cases h
      exact List.Forall₂.nil
  | cons c rest ih =>
      intro ts h
      unfold transcribeAll at h
      cases htc : t c with
      | error e => rw [htc] at h; exact Except.noConfusion h
      | ok txt =>
          rw [htc] at h
          cases hrest : transcribeAll t rest with
          | error e => rw [hrest] at h; exact Except.noConfusion h
          | ok ts' =>
              rw [hrest] at h
              cases h
              exact List.Forall₂.cons htc (ih hrest)

/-- C9: when every transcription succeeds, producing transcripts t1..tn in
clip order (the Forall₂), the Driver hands the summarizer the transcripts
joined by exactly one space (String.intercalate " "), and the publishing
collaborator is invoked with the summarizer's title and with a body equal to
the summarizer's body followed by the verbatim full transcript under the
fixed heading. -/
theorem c9_pipeline_body (clips : List Clip) (ts : List String)
    (title body : String) (t : Clip → Except String String)
    (sz : String → Except String (String × String))
    (pb : String → String → Except String String)
    (h1 : transcribeAll t clips = Except.ok ts)
    (h2 : sz (String.intercalate " " ts) = Except.ok (title, body)) :
    List.Forall₂ (fun c txt => t c = Except.ok txt) clips ts ∧
    runPipeline clips t sz pb =
      pb title (body ++ transcriptHeading ++ String.intercalate " " ts) := by
  refine ⟨transcribeAll_forall2 h1, ?_⟩
  simp only [runPipeline, h1, h2]

/-- Witness for C9 on two clips with transcripts "a" and "b". -/
theorem c9_witness :
    transcribeAll tEcho [⟨"a", ".webm"⟩, ⟨"b", ".webm"⟩] =
      Except.ok ["a", "b"] ∧
    szTB (String.intercalate " " ["a", "b"]) = Except.ok ("T", "B") ∧
    (List.Forall₂ (fun c txt => tEcho c = Except.ok txt)
      [⟨"a", ".webm"⟩, ⟨"b", ".webm"⟩] ["a", "b"] ∧
     runPipeline [⟨"a", ".webm"⟩, ⟨"b", ".webm"⟩] tEcho szTB pbHttp =
       pbHttp "T" ("B" ++ transcriptHeading ++
         String.intercalate " " ["a", "b"])) :=
  ⟨rfl, rfl,
   c9_pipeline_body [⟨"a", ".webm"⟩, ⟨"b", ".webm"⟩] ["a", "b"] "T" "B"
     tEcho szTB pbHttp rfl rfl⟩

end InternshipLogger
